import Mathlib

/-!
Shallow embedding of the `stac-stocktake` reconciler.

The embedding follows `stac_stocktake/stac_stocktake.py` (single-process
reconciler: cursors over the FBI and STAC indices, the merge loop `run`,
state persistence `get_initial_state` / `create_new_state`) and
`stac_stocktake_lotus/stac_stocktake_lotus_chunk.py` (the chunk worker).

Conventions used throughout:
* An Elasticsearch index is modelled as the ascending list of sort keys it
  holds; a query with `search_after=k` returns the first `size` keys
  strictly greater than `k` (Python's falsy check on `search_after` means
  the empty string disables the boundary).
* Python string comparison is code-point lexicographic; it is modelled by
  the executable `lexLt` / `keyLt` below.
* A Python generator is modelled as the list of records it will yield.
* Records distinguish genuine Elasticsearch hits (which carry `meta`) from
  plain dicts built in the code (which do not); the FBI fallback dict
  `{"properties": {"uri": ""}}` carries no `"path"` key at all, so reading
  `fbi_record["path"]` from it is a `KeyError`.
* Exceptions are modelled with `Except`; recursion in the Python helpers is
  given explicit fuel, `none` meaning the fuel ran out.
-/

/-- Code-point lexicographic comparison of character lists, mirroring
Python's `<` on strings. -/
def lexLt : List Char → List Char → Bool
  | [], [] => false
  | [], _ :: _ => true
  | _ :: _, [] => false
  | a :: as, b :: bs => if a < b then true else if b < a then false else lexLt as bs

/-- Python string `<`, applied to the underlying character lists. -/
def keyLt (a b : String) : Bool := lexLt a.data b.data

/-- An FBI-side record as held in `state.fbi_record`. -/
inductive FRec where
  /-- a genuine Elasticsearch hit: has `meta`, `meta.sort[0]` is the path -/
  | hit (path : String)
  /-- a plain dict `{"path": p}` built in the code: no `meta` -/
  | dictPath (path : String)
  /-- the plain fallback dict `{"properties": {"uri": ""}}`: no `"path"` key -/
  | dictUri
deriving DecidableEq

/-- Reading `fbi_record["path"]`; `none` models the `KeyError` raised when
the record has no `"path"` key. -/
def fkey? : FRec → Option String
  | .hit p => some p
  | .dictPath p => some p
  | .dictUri => none

/-- The trailing check of `next_fbi_record`: a hit whose `meta.sort[0]` is
falsy (empty path) is replaced by the plain dict `{"path": "~"}`; records
without `meta` are left alone (`hasattr` guard). -/
def fbiMetaFix : FRec → FRec
  | .hit p => if p = "" then .dictPath "~" else .hit p
  | r => r

/-- A STAC-side record as held in `state.stac_asset`. -/
inductive SRec where
  /-- a genuine Elasticsearch hit: has `meta`, `meta.sort[0]` is the uri -/
  | hit (uri : String)
  /-- a plain dict `{"properties": {"uri": u}}`: no `meta` -/
  | dict (uri : String)
deriving DecidableEq

/-- Reading `stac_asset["properties"]["uri"]` (present on both shapes). -/
def skey : SRec → String
  | .hit u => u
  | .dict u => u

/-- The trailing check of `next_stac_asset`: a hit whose `meta.sort[0]` is
falsy is replaced by the plain dict `{"properties": {"uri": "~"}}`. -/
def stacMetaFix : SRec → SRec
  | .hit u => if u = "" then .dict "~" else .hit u
  | r => r

/-- The hits returned by one sorted, bounded query: the first `n` keys of
the index strictly after `after` (`search_after` is only applied when it is
truthy, i.e. non-empty). -/
def pageAfter (src : List String) (n : Nat) (after : String) : List String :=
  (if after = "" then src else src.filter (fun k => keyLt after k)).take n

/-- Generator built by `get_fbi_records(search_after)`: yields the hits, or
the single plain dict `{"path": "~"}` when the response is empty. -/
def get_fbi_records (src : List String) (n : Nat) (after : String) : List FRec :=
  let hits := pageAfter src n after
  if hits = [] then [.dictPath "~"] else hits.map .hit

/-- Generator built by `get_stac_assets(search_after)`: yields the hits, or
the single plain dict `{"properties": {"uri": "~"}}` when the response is
empty. -/
def get_stac_assets (src : List String) (n : Nat) (after : String) : List SRec :=
  let hits := pageAfter src n after
  if hits = [] then [.dict "~"] else hits.map .hit

/-- The FBI cursor: current record, remaining generator, and the index plus
page size used when a new query is issued. -/
structure FbiCur where
  cur : FRec
  gen : List FRec
  src : List String
  pageN : Nat
deriving DecidableEq

/-- The STAC cursor. -/
structure StacCur where
  cur : SRec
  gen : List SRec
  src : List String
  pageN : Nat
deriving DecidableEq

/-- `next_fbi_record`: read the previous path (a `KeyError` if the current
record has no `"path"`), take the next generator element (falling back to
the plain dict `{"properties": {"uri": ""}}`, whose missing `"path"` makes
the following `self.fbi_path` check raise `KeyError`), refetch and recurse
when the new path is falsy, then apply the `meta.sort` check. -/
def next_fbi_record : Nat → FbiCur → Option (Except Unit FbiCur)
  | 0, _ => none
  | fuel + 1, c =>
    match fkey? c.cur with
    | none => some (.error ())
    | some previous =>
      match c.gen with
      | [] => some (.error ())
      | r :: rest =>
        match fkey? r with
        | none => some (.error ())
        | some k =>
          if k = "" then
            match next_fbi_record fuel
                { c with cur := r, gen := get_fbi_records c.src c.pageN previous } with
            | none => none
            | some (.error e) => some (.error e)
            | some (.ok c') => some (.ok { c' with cur := fbiMetaFix c'.cur })
          else
            some (.ok { c with cur := fbiMetaFix r, gen := rest })

/-- `next_stac_asset`: take the next generator element (falling back to the
plain dict with uri `""`), refetch from the previous uri and recurse when
the new uri is falsy, then apply the `meta.sort` check. -/
def next_stac_asset : Nat → StacCur → Option StacCur
  | 0, _ => none
  | fuel + 1, c =>
    let previous := skey c.cur
    match c.gen with
    | [] =>
      match next_stac_asset fuel
          { c with cur := .dict "", gen := get_stac_assets c.src c.pageN previous } with
      | none => none
      | some c' => some { c' with cur := stacMetaFix c'.cur }
    | r :: rest =>
      if skey r = "" then
        match next_stac_asset fuel
            { c with cur := r, gen := get_stac_assets c.src c.pageN previous } with
        | none => none
        | some c' => some { c' with cur := stacMetaFix c'.cur }
      else
        some { c with cur := stacMetaFix r, gen := rest }

/-- A decision taken by one iteration of the merge loop. -/
inductive Decision where
  | create (key : String)
  | delete (key : String)
  | matched (key : String)
deriving DecidableEq

/-- The in-memory run state of `StacStocktake`: both cursors and the
`State` document counters; `saves` records the value of `count` at each
`state.save()` call, newest first. -/
structure RunState where
  fbi : FbiCur
  stac : StacCur
  count : Nat
  new : Nat
  deleted : Nat
  same : Nat
  saves : List Nat
deriving DecidableEq

/-- `state.save()`, recorded by its `count` value. -/
def saveState (s : RunState) : RunState := { s with saves := s.count :: s.saves }

/-- The Python exception that ended a run (or the fuel bound). -/
inductive RunErr where
  | keyError
  | attrError
  | sinkError
  | fuelOut
deriving DecidableEq

/-- Outcome of one iteration of the `while True` loop in `run`. -/
inductive StepOut where
  | done (s : RunState)
  | cont (s : RunState) (d : Decision)
  | fail (s : RunState) (e : RunErr)
deriving DecidableEq

/-- One iteration of `StacStocktake.run`: save every 1000 items (checked
before `count` is incremented), increment `count`, stop when both paths are
the sentinel (saving unconditionally), otherwise take the create / delete /
match branch.  `create_stac_asset` increments `new` *before* handing the
path to the sink, so a sink failure propagates with the counter already
advanced.  `delete_stac_asset` is `pass`: no counter is touched. -/
def stepRun (sink : String → Except Unit Unit) (s0 : RunState) : StepOut :=
  let s1 := if s0.count % 1000 = 0 then saveState s0 else s0
  let s2 := { s1 with count := s1.count + 1 }
  match fkey? s2.fbi.cur with
  | none => .fail s2 .keyError
  | some f =>
    let t := skey s2.stac.cur
    if f = "~" ∧ t = "~" then
      .done (saveState s2)
    else if t = "~" ∨ keyLt f t then
      let s3 := { s2 with new := s2.new + 1 }
      match sink f with
      | .error _ => .fail s3 .sinkError
      | .ok _ =>
        match next_fbi_record 2 s3.fbi with
        | none => .fail s3 .fuelOut
        | some (.error _) => .fail s3 .keyError
        | some (.ok fc) => .cont { s3 with fbi := fc } (.create f)
    else if f = "~" ∨ keyLt t f then
      match next_stac_asset 2 s2.stac with
      | none => .fail s2 .fuelOut
      | some sc => .cont { s2 with stac := sc } (.delete t)
    else if f = t then
      match next_fbi_record 2 s2.fbi with
      | none => .fail s2 .fuelOut
      | some (.error _) => .fail s2 .keyError
      | some (.ok fc) =>
        match next_stac_asset 2 s2.stac with
        | none => .fail { s2 with fbi := fc } .fuelOut
        | some sc => .cont { s2 with fbi := fc, stac := sc } (.matched f)
    else
      -- unreachable: the three comparisons are exhaustive for a total order
      .fail s2 .fuelOut

/-- Result of driving the loop to its end (or out of fuel). -/
inductive RunRes where
  | fin (s : RunState)
  | crashed (s : RunState) (e : RunErr)
  | fuelOut (s : RunState)
deriving DecidableEq

/-- Iterate `stepRun`, collecting the decision taken by every completed
iteration in order. -/
def runFrom (sink : String → Except Unit Unit) : Nat → RunState → RunRes × List Decision
  | 0, s => (.fuelOut s, [])
  | fuel + 1, s =>
    match stepRun sink s with
    | .done s' => (.fin s', [])
    | .fail s' e => (.crashed s' e, [])
    | .cont s' d =>
      let out := runFrom sink fuel s'
      (out.1, d :: out.2)

/-- The tail of `StacStocktake.__init__`: build both generators from the
persisted cursor keys and read the first record and asset. -/
def initRun (fbiSrc stacSrc : List String) (n : Nat) (fbiKey stacKey : String) :
    Option (Except Unit RunState) :=
  let f0 : FbiCur :=
    { cur := .dictPath fbiKey, gen := get_fbi_records fbiSrc n fbiKey, src := fbiSrc, pageN := n }
  let t0 : StacCur :=
    { cur := .dict stacKey, gen := get_stac_assets stacSrc n stacKey, src := stacSrc, pageN := n }
  match next_fbi_record 2 f0 with
  | none => none
  | some (.error e) => some (.error e)
  | some (.ok f1) =>
    match next_stac_asset 2 t0 with
    | none => none
    | some t1 =>
      some (.ok { fbi := f1, stac := t1, count := 0, new := 0, deleted := 0, same := 0, saves := [] })

/-- A fresh-state run: `__init__` from the freshly created state (both keys
the empty string, all counters zero) followed by `run`. -/
def runStocktake (sink : String → Except Unit Unit) (fbiSrc stacSrc : List String)
    (n fuel : Nat) : Option (Except Unit (RunRes × List Decision)) :=
  match initRun fbiSrc stacSrc n "" "" with
  | none => none
  | some (.error e) => some (.error e)
  | some (.ok s) => some (.ok (runFrom sink fuel s))

/-- An action sink that always succeeds (queue reachable / generator ok). -/
def sinkOk : String → Except Unit Unit := fun _ => .ok ()

/-- An action sink that always raises. -/
def sinkFail : String → Except Unit Unit := fun _ => .error ()

/-- The persisted `State` document (timestamps omitted: no claim concerns
them). -/
structure StateRec where
  run : Nat
  fbi_path : String
  stac_uri : String
  count : Nat
  new : Nat
  deleted : Nat
  same : Nat
deriving DecidableEq

/-- `create_new_state`: run id is the previous id plus one, or 1 when no
state was passed; both cursor keys reset to the empty string, counters
zeroed. -/
def create_new_state (prev : Option StateRec) : StateRec :=
  { run := match prev with | none => 1 | some s => s.run + 1
    fbi_path := ""
    stac_uri := ""
    count := 0
    new := 0
    deleted := 0
    same := 0 }

/-- The search `State.search().sort("-run").extra(size=1)`: the document
with the highest run id, if any. -/
def searchTopByRun (docs : List StateRec) : Option StateRec :=
  docs.foldl
    (fun acc d =>
      match acc with
      | none => some d
      | some m => if m.run < d.run then some d else some m)
    none

/-- `get_initial_state`, parametrised by the state index: `none` models a
missing index (the search raises `NotFoundError`, which is caught).  When
the search succeeds `state` is set only if there is a hit (`total != 0`);
with zero hits `state` stays `None` and the following
`state.stac_asset[...]` dereference raises `AttributeError`, which is not
caught. -/
def get_initial_state (index : Option (List StateRec)) : Except RunErr StateRec :=
  match index with
  | none => .ok (create_new_state none)
  | some docs =>
    match searchTopByRun docs with
    | some top =>
      if top.stac_uri ≠ "~" ∨ top.fbi_path ≠ "~" then .ok top
      else .ok (create_new_state (some top))
    | none => .error .attrError

/-- Whether a record is a genuine hit, i.e. `hasattr(asset, "meta")`. -/
def hasMeta : SRec → Bool
  | .hit _ => true
  | .dict _ => false

/-- The chunk worker's query (`stac_stocktake_lotus_chunk.get_stac_assets`):
a `range gte` filter on the first chunk of a slice, `search_after`
otherwise (applied unconditionally there). -/
def chunkFetch (src : List String) (n : Nat) (after : String) (first : Bool) : List String :=
  (if first then src.filter (fun k => ¬ keyLt k after)
   else src.filter (fun k => keyLt after k)).take n

/-- Generator built by the chunk worker's `get_stac_assets`. -/
def chunk_get_stac_assets (src : List String) (n : Nat) (after : String) (first : Bool) :
    List SRec :=
  let hits := chunkFetch src n after first
  if hits = [] then [.dict "~"] else hits.map .hit

/-- The chunk worker's `next_stac_path`: take the next generator element
(falling back to the plain dict with uri `""`); on a falsy uri, refetch and
recurse but *discard* the recursive result (the recursion still consumes
one element of the new generator, and an exception raised inside it
propagates); then read `stac_asset.meta.sort[0]` on the *old* record — an
`AttributeError` whenever that record is a plain dict. -/
def next_stac_path : Nat → List String → Nat → String → List SRec →
    Option (Except Unit (String × List SRec))
  | 0, _, _, _, _ => none
  | fuel + 1, src, n, cur, gen =>
    let asset := gen.headD (.dict "")
    let genRest := gen.tail
    if skey asset = "" then
      let gen2 := chunk_get_stac_assets src n cur false
      match next_stac_path fuel src n cur gen2 with
      | none => none
      | some (.error e) => some (.error e)
      | some (.ok _) =>
        if hasMeta asset then some (.ok ("~", gen2.tail))
        else some (.error ())
    else
      if hasMeta asset then some (.ok (skey asset, genRest))
      else some (.error ())

/-- Local state of `run_chunk`'s loop. -/
structure ChunkState where
  fbi_path : String
  file : List String
  stac_path : String
  gen : List SRec
  count : Nat
  new : Nat
  exists_ : Nat
  removed : Nat
deriving DecidableEq

/-- Result of the chunk loop. -/
inductive ChunkRes where
  | fin (s : ChunkState)
  | crashed (s : ChunkState)
  | fuelOut (s : ChunkState)
deriving DecidableEq

/-- `fbi_file.readline()`: the next line *with* its trailing newline, or
the empty string at end of file. -/
def readline : List String → String × List String
  | [] => ("", [])
  | l :: rest => (l ++ "\n", rest)

/-- The `while True` loop of `run_chunk`: stop when `fbi_path` is empty;
otherwise count the entry and take the create / removed / exists branch.
Only the initial read is `.strip()`ped — the reads inside the loop keep
the trailing newline. -/
def runChunkFrom (src : List String) (n : Nat) :
    Nat → ChunkState → ChunkRes × List Decision
  | 0, s => (.fuelOut s, [])
  | fuel + 1, s0 =>
    if s0.fbi_path = "" then (.fin s0, [])
    else
      let s1 := { s0 with count := s0.count + 1 }
      if s1.stac_path = "~" ∨ keyLt s1.fbi_path s1.stac_path then
        let s2 := { s1 with new := s1.new + 1 }
        let r := readline s2.file
        let s3 := { s2 with fbi_path := r.1, file := r.2 }
        let out := runChunkFrom src n fuel s3
        (out.1, .create s1.fbi_path :: out.2)
      else if keyLt s1.stac_path s1.fbi_path then
        let s2 := { s1 with removed := s1.removed + 1 }
        match next_stac_path 3 src n s2.stac_path s2.gen with
        | none => (.fuelOut s2, [])
        | some (.error _) => (.crashed s2, [])
        | some (.ok pg) =>
          let s3 := { s2 with stac_path := pg.1, gen := pg.2 }
          let out := runChunkFrom src n fuel s3
          (out.1, .delete s1.stac_path :: out.2)
      else
        let s2 := { s1 with exists_ := s1.exists_ + 1 }
        let r := readline s2.file
        let s3 := { s2 with fbi_path := r.1, file := r.2 }
        match next_stac_path 3 src n s3.stac_path s3.gen with
        | none => (.fuelOut s3, [])
        | some (.error _) => (.crashed s3, [])
        | some (.ok pg) =>
          let s4 := { s3 with stac_path := pg.1, gen := pg.2 }
          let out := runChunkFrom src n fuel s4
          (out.1, .matched s1.fbi_path :: out.2)

/-- `run_chunk`: first line of the persisted chunk input (stripped), a
catalog cursor built from the resume key (`gte` on the first chunk), one
initial `next_stac_path`, then the loop. -/
def run_chunk (src : List String) (n : Nat) (file : List String) (after : String)
    (first : Bool) (fuel : Nat) : Option (Except Unit (ChunkRes × List Decision)) :=
  let l0 := match file with | [] => "" | l :: _ => l
  let f1 := match file with | [] => ([] : List String) | _ :: r => r
  let gen0 := chunk_get_stac_assets src n after first
  match next_stac_path 3 src n "" gen0 with
  | none => none
  | some (.error e) => some (.error e)
  | some (.ok pg) =>
    some (.ok (runChunkFrom src n fuel
      { fbi_path := l0, file := f1, stac_path := pg.1, gen := pg.2,
        count := 0, new := 0, exists_ := 0, removed := 0 }))

/-- Modelled from the spec: the MergeReconciler transition rule of §4.2,
restricted to two finite key sequences, used as the reference side of the
chunk-worker refinement claim (the repository has no separate pure merge
routine). `delete` plays the role of the skip-catalog-entry decision. -/
def mergeRuleAux : Nat → List String → List String → List Decision
  | 0, _, _ => []
  | _, [], [] => []
  | fuel + 1, a :: as, [] => .create a :: mergeRuleAux fuel as []
  | fuel + 1, [], b :: bs => .delete b :: mergeRuleAux fuel [] bs
  | fuel + 1, a :: as, b :: bs =>
    if a = b then .matched a :: mergeRuleAux fuel as bs
    else if keyLt b a then .delete b :: mergeRuleAux fuel (a :: as) bs
    else .create a :: mergeRuleAux fuel as (b :: bs)

/-- Entry point of the transition rule: one of the two sequences shrinks at
every step, so their combined length bounds the recursion. -/
def mergeRule (src cat : List String) : List Decision :=
  mergeRuleAux (src.length + cat.length) src cat

/-- A real key: non-empty and entirely below the sentinel character. -/
def validKey (k : String) : Prop := k ≠ "" ∧ ∀ c ∈ k.data, c < '~'

instance (k : String) : Decidable (validKey k) :=
  inferInstanceAs (Decidable (k ≠ "" ∧ ∀ c ∈ k.data, c < '~'))

/-- A well-formed index: strictly ascending real keys. -/
def validSrc (src : List String) : Prop :=
  src.Pairwise (fun a b => keyLt a b = true) ∧ ∀ k ∈ src, validKey k

/-- Shape of a record a STAC generator may hold: a hit on a real key, or
the plain sentinel dict. -/
def goodSRec (r : SRec) : Prop :=
  match r with
  | .hit u => validKey u
  | .dict u => u = "~"

instance (r : SRec) : Decidable (goodSRec r) :=
  match r with
  | .hit u => inferInstanceAs (Decidable (validKey u))
  | .dict u => inferInstanceAs (Decidable (u = "~"))

/-- Shape of a record an FBI generator may hold. -/
def goodFRec (r : FRec) : Prop :=
  match r with
  | .hit p => validKey p
  | .dictPath p => p = "~"
  | .dictUri => False

instance (r : FRec) : Decidable (goodFRec r) :=
  match r with
  | .hit p => inferInstanceAs (Decidable (validKey p))
  | .dictPath p => inferInstanceAs (Decidable (p = "~"))
  | .dictUri => inferInstanceAs (Decidable False)

/-- Cursor invariant for the STAC side: well-formed index; the current uri
is the sentinel, a real key, or the initial empty string; the pending
generator holds well-shaped records, strictly ascending, all strictly
beyond the current uri. -/
def stacInv (c : StacCur) : Prop :=
  validSrc c.src ∧
  (skey c.cur = "~" ∨ validKey (skey c.cur) ∨ skey c.cur = "") ∧
  (∀ r ∈ c.gen, keyLt (skey c.cur) (skey r) = true) ∧
  c.gen.Pairwise (fun a b => keyLt (skey a) (skey b) = true) ∧
  (∀ r ∈ c.gen, goodSRec r)

/-- Cursor invariant for the FBI side. -/
def fbiInv (c : FbiCur) : Prop :=
  validSrc c.src ∧
  (∃ p, fkey? c.cur = some p ∧ (p = "~" ∨ validKey p ∨ p = "")) ∧
  (∀ r ∈ c.gen, ∃ k, fkey? r = some k ∧
    keyLt ((fkey? c.cur).getD "") k = true) ∧
  c.gen.Pairwise (fun a b => ∀ ka kb, fkey? a = some ka → fkey? b = some kb →
    keyLt ka kb = true) ∧
  (∀ r ∈ c.gen, goodFRec r)

instance (src : List String) : Decidable (validSrc src) :=
  inferInstanceAs
    (Decidable (src.Pairwise (fun a b => keyLt a b = true) ∧ ∀ k ∈ src, validKey k))

instance (c : StacCur) : Decidable (stacInv c) :=
  inferInstanceAs (Decidable (validSrc c.src ∧
    (skey c.cur = "~" ∨ validKey (skey c.cur) ∨ skey c.cur = "") ∧
    (∀ r ∈ c.gen, keyLt (skey c.cur) (skey r) = true) ∧
    c.gen.Pairwise (fun a b => keyLt (skey a) (skey b) = true) ∧
    (∀ r ∈ c.gen, goodSRec r)))

/-! ## Claim theorems: concrete evaluations -/

/-- C1. The claim says every cursor re-issues its query at the last
confirmed key instead of treating an empty page as exhaustion.  Evaluating
the code: after the one-hit page of the FBI source `["a","b"]` (page size
1) is consumed, advancing the FBI cursor raises `KeyError` (the fallback
record has no `"path"`) instead of re-issuing the query; the STAC cursor in
the same position does re-issue with boundary `"a"` and moves to `"b"`, and
it is the emptiness of the *re-issued* page (boundary `"b"`) that sets the
sentinel. -/
theorem c1_fbi_page_end_keyerror :
    next_fbi_record 2 ⟨.hit "a", [], ["a", "b"], 1⟩ = some (.error ()) ∧
    next_stac_asset 2 ⟨.hit "a", [], ["a", "b"], 1⟩ = some ⟨.hit "b", [], ["a", "b"], 1⟩ ∧
    next_stac_asset 2 ⟨.hit "b", [], ["a", "b"], 1⟩ = some ⟨.dict "~", [], ["a", "b"], 1⟩ :=
  ⟨rfl, rfl, rfl⟩

/-- C2. On source `[a,b,c]` and catalog `[b,c,d]` the run emits
`Create(a)`, `Match(b)` and then crashes with `KeyError` while advancing
the FBI cursor during the `Match(c)` step (the exhausted page iterator's
fallback record has no `"path"`); the counters end `new = 1`,
`deleted = 0`, `same = 0` — not the claimed completed run with
`created = 1, deleted = 1, matched = 2`. -/
theorem c2_interleave_run_crashes :
    runStocktake sinkOk ["a", "b", "c"] ["b", "c", "d"] 10000 10 =
      some (.ok (.crashed
        ⟨⟨.hit "c", [], ["a", "b", "c"], 10000⟩,
         ⟨.hit "c", [.hit "d"], ["b", "c", "d"], 10000⟩,
         3, 1, 0, 0, [0]⟩ .keyError,
        [.create "a", .matched "b"])) :=
  rfl

/-- C3. A `Match` step and a `Delete` step increment none of
`new`/`deleted`/`same` (only `count`), contradicting the claimed
exactly-one-counter increment; a `Create` step does increment `new`; the
cadence saves at `count % 1000 == 0` and the unconditional save on
reaching the terminal state do happen (the `saves` traces below). -/
theorem c3_match_and_delete_increment_no_counter :
    stepRun sinkOk ⟨⟨.hit "a", [.hit "b"], ["a", "b"], 10000⟩,
        ⟨.hit "a", [.hit "b"], ["a", "b"], 10000⟩, 0, 0, 0, 0, []⟩ =
      .cont ⟨⟨.hit "b", [], ["a", "b"], 10000⟩,
        ⟨.hit "b", [], ["a", "b"], 10000⟩, 1, 0, 0, 0, [0]⟩ (.matched "a") ∧
    stepRun sinkOk ⟨⟨.dictPath "~", [], [], 10000⟩,
        ⟨.hit "a", [], ["a"], 10000⟩, 0, 0, 0, 0, []⟩ =
      .cont ⟨⟨.dictPath "~", [], [], 10000⟩,
        ⟨.dict "~", [], ["a"], 10000⟩, 1, 0, 0, 0, [0]⟩ (.delete "a") ∧
    stepRun sinkOk ⟨⟨.hit "a", [.hit "b"], ["a", "b"], 10000⟩,
        ⟨.dict "~", [], [], 10000⟩, 1, 0, 0, 0, [0]⟩ =
      .cont ⟨⟨.hit "b", [], ["a", "b"], 10000⟩,
        ⟨.dict "~", [], [], 10000⟩, 2, 1, 0, 0, [0]⟩ (.create "a") ∧
    stepRun sinkOk ⟨⟨.dictPath "~", [], [], 10000⟩,
        ⟨.dict "~", [], [], 10000⟩, 5, 1, 0, 0, [0]⟩ =
      .done ⟨⟨.dictPath "~", [], [], 10000⟩,
        ⟨.dict "~", [], [], 10000⟩, 6, 1, 0, 0, [6, 0]⟩ :=
  ⟨rfl, rfl, rfl, rfl⟩

/-- C4. When the state index is missing (`NotFoundError`) a fresh state is
created, and a resumable / completed top state is returned / replaced as
claimed; but when the index exists with zero documents the search succeeds,
`state` stays `None`, and `get_initial_state` raises `AttributeError`
instead of creating a fresh state — loading can raise. -/
theorem c4_empty_index_raises :
    get_initial_state none = .ok (create_new_state none) ∧
    get_initial_state (some [⟨3, "p", "u", 5, 1, 0, 2⟩]) = .ok ⟨3, "p", "u", 5, 1, 0, 2⟩ ∧
    get_initial_state (some [⟨3, "~", "~", 5, 1, 0, 2⟩, ⟨2, "x", "y", 1, 1, 1, 1⟩]) =
      .ok ⟨4, "", "", 0, 0, 0, 0⟩ ∧
    get_initial_state (some []) = .error .attrError :=
  ⟨rfl, rfl, rfl, rfl⟩

/-- C5. The same logical FBI sequence `[a,b,c]` (empty catalog) produces
different decision sequences and counters under different page sizes: with
page size 1 the run crashes with `KeyError` before emitting any decision
(`new = 1`), with page size 3 it crashes after emitting
`Create(a), Create(b)` (`new = 3`) — pagination is not transparent. -/
theorem c5_page_size_changes_decisions :
    runStocktake sinkOk ["a", "b", "c"] [] 1 10 =
      some (.ok (.crashed ⟨⟨.hit "a", [], ["a", "b", "c"], 1⟩,
        ⟨.dict "~", [], [], 1⟩, 1, 1, 0, 0, [0]⟩ .keyError, [])) ∧
    runStocktake sinkOk ["a", "b", "c"] [] 3 10 =
      some (.ok (.crashed ⟨⟨.hit "c", [], ["a", "b", "c"], 3⟩,
        ⟨.dict "~", [], [], 3⟩, 3, 3, 0, 0, [0]⟩ .keyError,
        [.create "a", .create "b"])) ∧
    ([] : List Decision) ≠ [.create "a", .create "b"] :=
  ⟨rfl, rfl, by decide⟩

/-- C6 counterexample. With a sink that raises, the run on source `["a"]`
crashes at the first `Create` decision — but the state at the moment the
error propagates has `new = 1` and `count = 1`, while the state immediately
before the decision (the initial state) had `new = 0`: the created counter
*has* advanced past the failed decision, refuting strict error atomicity.
The cursor, however, has not moved (`cur` is still the hit `"a"`). -/
theorem c6_counterexample_new_already_incremented :
    runStocktake sinkFail ["a"] [] 10000 5 =
      some (.ok (.crashed ⟨⟨.hit "a", [], ["a"], 10000⟩,
        ⟨.dict "~", [], [], 10000⟩, 1, 1, 0, 0, [0]⟩ .sinkError, [])) ∧
    initRun ["a"] [] 10000 "" "" =
      some (.ok ⟨⟨.hit "a", [], ["a"], 10000⟩,
        ⟨.dict "~", [], [], 10000⟩, 0, 0, 0, 0, []⟩) ∧
    (1 : Nat) ≠ 0 :=
  ⟨rfl, rfl, by decide⟩

/-- C7. On chunk input file `["a","b"]` against catalog `["a","b","c"]`
(first chunk, resume key `""`), the worker emits `Match(a)`,
`Skip(b)`, `Create("b\n")` with counters `new = 1, exists = 1,
removed = 1`, because every `readline()` after the first keeps its
trailing newline; the merge transition rule on the same key sequences
gives `Match(a)`, `Match(b)`, `Skip(c)` — the worker does not refine the
rule. -/
theorem c7_chunk_worker_diverges_from_merge_rule :
    run_chunk ["a", "b", "c"] 10000 ["a", "b"] "" true 10 =
      some (.ok (.fin ⟨"", [], "c", [], 3, 1, 1, 1⟩,
        [.matched "a", .delete "b", .create "b\n"])) ∧
    mergeRule ["a", "b"] ["a", "b", "c"] = [.matched "a", .matched "b", .delete "c"] ∧
    ([.matched "a", .delete "b", .create "b\n"] : List Decision) ≠
      [.matched "a", .matched "b", .delete "c"] :=
  ⟨rfl, by decide, by decide⟩

/-- C9. `create_new_state` allocates run id `previous.run + 1`, or 1 when
no previous state exists, resets both cursor keys to the empty string
(which is not the sentinel), and zeroes all four counters. -/
theorem c9_create_new_state_fresh :
    (create_new_state none).run = 1 ∧
    (∀ p : StateRec, (create_new_state (some p)).run = p.run + 1) ∧
    ∀ prev : Option StateRec,
      (create_new_state prev).fbi_path = "" ∧
      (create_new_state prev).stac_uri = "" ∧
      (create_new_state prev).fbi_path ≠ "~" ∧
      (create_new_state prev).count = 0 ∧
      (create_new_state prev).new = 0 ∧
      (create_new_state prev).deleted = 0 ∧
      (create_new_state prev).same = 0 :=
  ⟨rfl, fun _ => rfl, fun _ =>
    ⟨rfl, rfl, (by decide : ("" : String) ≠ "~"), rfl, rfl, rfl, rfl⟩⟩

/-! ## Helper lemmas on the key order and pages -/

theorem keyLt_sentinel {k : String} (h : validKey k) : keyLt k "~" = true := by
  obtain ⟨hne, hch⟩ := h
  unfold keyLt
  cases hd : k.data with
  | nil => exact absurd (String.ext (by rw [hd])) hne
  | cons c cs =>
    have hc : c < '~' := hch c (hd ▸ List.mem_cons_self c cs)
    show lexLt (c :: cs) ['~'] = true
    simp [lexLt, hc]

theorem keyLt_empty {k : String} (h : k ≠ "") : keyLt "" k = true := by
  unfold keyLt
  cases hd : k.data with
  | nil => exact absurd (String.ext (by rw [hd])) h
  | cons c cs => rfl

theorem lexLt_asymm : ∀ (a b : List Char), lexLt a b = true → lexLt b a = false
  | [], [], h => by simp [lexLt] at h
  | [], _ :: _, _ => by simp [lexLt]
  | _ :: _, [], h => by simp [lexLt] at h
  | a :: as, b :: bs, h => by
    simp only [lexLt] at h ⊢
    by_cases hab : a < b
    · simp [hab, lt_asymm hab]
    · by_cases hba : b < a
      · simp [hab, hba] at h
      · simpa [hab, hba] using lexLt_asymm as bs (by simpa [hab, hba] using h)

theorem keyLt_asymm {a b : String} (h : keyLt a b = true) : keyLt b a = false :=
  lexLt_asymm _ _ h

theorem pageAfter_mem {src : List String} {n : Nat} {after k : String}
    (h : k ∈ pageAfter src n after) : k ∈ src := by
  unfold pageAfter at h
  have h1 := List.take_subset _ _ h
  by_cases ha : after = ""
  · simpa [ha] using h1
  · rw [if_neg ha] at h1
    exact (List.mem_filter.mp h1).1

theorem pageAfter_gt {src : List String} {n : Nat} {after k : String}
    (ha : after ≠ "") (h : k ∈ pageAfter src n after) : keyLt after k = true := by
  unfold pageAfter at h
  rw [if_neg ha] at h
  exact (List.mem_filter.mp (List.take_subset _ _ h)).2

theorem pageAfter_pairwise {src : List String} {n : Nat} {after : String}
    (h : src.Pairwise (fun a b => keyLt a b = true)) :
    (pageAfter src n after).Pairwise (fun a b => keyLt a b = true) := by
  unfold pageAfter
  refine List.Pairwise.sublist (List.take_sublist _ _) ?_
  split
  · exact h
  · exact List.Pairwise.sublist (List.filter_sublist _) h

theorem pageAfter_sentinel {src : List String} {n : Nat}
    (h : ∀ k ∈ src, validKey k) : pageAfter src n "~" = [] := by
  unfold pageAfter
  rw [if_neg (by decide : ¬("~" : String) = "")]
  have hf : src.filter (fun k => keyLt "~" k) = [] :=
    List.filter_eq_nil_iff.mpr fun k hk => by
      simp [keyLt_asymm (keyLt_sentinel (h k hk))]
  rw [hf]
  exact List.take_nil

theorem goodSRec_ne {r : SRec} (h : goodSRec r) : skey r ≠ "" := by
  cases r with
  | hit u => exact h.1
  | dict u =>
    have hu : u = "~" := h
    subst hu
    decide

theorem stacMetaFix_good {r : SRec} (h : goodSRec r) : stacMetaFix r = r := by
  cases r with
  | hit u => simp [stacMetaFix, h.1]
  | dict u => rfl

/-- Advancing a STAC cursor that satisfies the invariant succeeds, keeps the
invariant, and moves the uri strictly forward, with the sentinel absorbing. -/
theorem stac_advance_spec (c : StacCur) (h : stacInv c) :
    ∃ c', next_stac_asset 2 c = some c' ∧ stacInv c' ∧
      (keyLt (skey c.cur) (skey c'.cur) = true ∨
        (skey c.cur = "~" ∧ skey c'.cur = "~")) ∧
      (skey c.cur = "~" → skey c'.cur = "~") := by
  obtain ⟨⟨hsrcP, hsrcV⟩, hcur, hgt, hpw, hshape⟩ := h
  cases hg : c.gen with
  | cons r rest =>
    have hr : goodSRec r := hshape r (hg ▸ List.mem_cons_self r rest)
    have hne : ¬ skey r = "" := goodSRec_ne hr
    refine ⟨{ c with cur := r, gen := rest }, ?_, ?_, ?_, ?_⟩
    · simp [next_stac_asset, hg, hne, stacMetaFix_good hr]
    · refine ⟨⟨hsrcP, hsrcV⟩, ?_, ?_, ?_, ?_⟩
      · cases r with
        | hit u => exact Or.inr (Or.inl hr)
        | dict u => exact Or.inl hr
      · intro x hx
        exact (List.pairwise_cons.mp (hg ▸ hpw)).1 x hx
      · exact (List.pairwise_cons.mp (hg ▸ hpw)).2
      · intro x hx
        exact hshape x (hg ▸ List.mem_cons_of_mem r hx)
    · exact Or.inl (hgt r (hg ▸ List.mem_cons_self r rest))
    · intro hsent
      exfalso
      have h1 := hgt r (hg ▸ List.mem_cons_self r rest)
      rw [hsent] at h1
      cases r with
      | hit u =>
        have := keyLt_asymm (keyLt_sentinel hr)
        simp only [skey] at h1
        rw [h1] at this
        cases this
      | dict u =>
        have hu : u = "~" := hr
        subst hu
        simp [keyLt, lexLt] at h1
  | nil =>
    cases hpage : pageAfter c.src c.pageN (skey c.cur) with
    | nil =>
      refine ⟨{ c with cur := .dict "~", gen := [] }, ?_, ?_, ?_, ?_⟩
      · simp only [next_stac_asset, hg, get_stac_assets, hpage]
        rfl
      · exact ⟨⟨hsrcP, hsrcV⟩, Or.inl rfl, by simp, by simp, by simp⟩
      · rcases hcur with hs | hv | he
        · exact Or.inr ⟨hs, rfl⟩
        · exact Or.inl (keyLt_sentinel hv)
        · refine Or.inl ?_
          rw [he]
          show keyLt "" "~" = true
          decide
      · intro _; rfl
    | cons k t =>
      have hkmem : k ∈ pageAfter c.src c.pageN (skey c.cur) := by
        rw [hpage]; exact List.mem_cons_self k t
      have hkval : validKey k := hsrcV k (pageAfter_mem hkmem)
      have hkne : ¬ k = "" := hkval.1
      refine ⟨{ c with cur := .hit k, gen := t.map .hit }, ?_, ?_, ?_, ?_⟩
      · simp only [next_stac_asset, hg, get_stac_assets, hpage]
        simp [skey, stacMetaFix, hkne]
      · refine ⟨⟨hsrcP, hsrcV⟩, Or.inr (Or.inl hkval), ?_, ?_, ?_⟩
        · intro x hx
          obtain ⟨y, hy, hxy⟩ := List.mem_map.mp hx
          have hPw := @pageAfter_pairwise c.src c.pageN (skey c.cur) hsrcP
          rw [hpage] at hPw
          have := (List.pairwise_cons.mp hPw).1 y hy
          rw [← hxy]
          simpa [skey] using this
        · have hPw := @pageAfter_pairwise c.src c.pageN (skey c.cur) hsrcP
          rw [hpage] at hPw
          have ht := (List.pairwise_cons.mp hPw).2
          exact List.pairwise_map.mpr (by simpa [skey] using ht)
        · intro x hx
          obtain ⟨y, hy, hxy⟩ := List.mem_map.mp hx
          have : validKey y := hsrcV y (pageAfter_mem (by rw [hpage]; exact List.mem_cons_of_mem k hy))
          rw [← hxy]
          exact this
      · refine Or.inl ?_
        by_cases he : skey c.cur = ""
        · rw [he]
          exact keyLt_empty hkne
        · exact pageAfter_gt he hkmem
      · intro hsent
        exfalso
        rw [hsent] at hpage
        rw [pageAfter_sentinel hsrcV] at hpage
        cases hpage

theorem goodFRec_key {r : FRec} (h : goodFRec r) :
    ∃ k, fkey? r = some k ∧ k ≠ "" ∧ (validKey k ∨ k = "~") := by
  cases r with
  | hit p => exact ⟨p, rfl, h.1, Or.inl h⟩
  | dictPath p =>
    have hp : p = "~" := h
    subst hp
    exact ⟨"~", rfl, by decide, Or.inr rfl⟩
  | dictUri => exact absurd h (by simp [goodFRec])

theorem fbiMetaFix_good {r : FRec} (h : goodFRec r) : fbiMetaFix r = r := by
  cases r with
  | hit p => simp [fbiMetaFix, h.1]
  | dictPath p => rfl
  | dictUri => rfl

/-- Advancing an FBI cursor that satisfies the invariant and succeeds keeps
the invariant and moves the path strictly forward. -/
theorem fbi_advance_spec (c : FbiCur) (h : fbiInv c) (c' : FbiCur)
    (hstep : next_fbi_record 2 c = some (.ok c')) :
    fbiInv c' ∧
      ∃ p p', fkey? c.cur = some p ∧ fkey? c'.cur = some p' ∧ keyLt p p' = true := by
  obtain ⟨⟨hsrcP, hsrcV⟩, ⟨p, hp, hpstat⟩, hgt, hpw, hshape⟩ := h
  cases hg : c.gen with
  | nil =>
    rw [hg] at hgt hpw hshape
    simp only [next_fbi_record, hp, hg] at hstep
    exact absurd hstep (by simp)
  | cons r rest =>
    rw [hg] at hgt hpw hshape
    have hr : goodFRec r := hshape r (List.mem_cons_self r rest)
    obtain ⟨k, hk, hkne, hkstat⟩ := goodFRec_key hr
    have hltpk : keyLt p k = true := by
      obtain ⟨k', hk', hlt'⟩ := hgt r (List.mem_cons_self r rest)
      rw [hk] at hk'
      cases hk'
      rwa [hp, Option.getD_some] at hlt'
    simp only [next_fbi_record, hp, hg, hk] at hstep
    rw [if_neg hkne] at hstep
    rw [fbiMetaFix_good hr] at hstep
    have hc' : c' = { c with cur := r, gen := rest } := by
      cases hstep
      rfl
    subst hc'
    refine ⟨⟨⟨hsrcP, hsrcV⟩, ⟨k, hk, ?_⟩, ?_, ?_, ?_⟩, p, k, hp, hk, hltpk⟩
    · rcases hkstat with hv | hs
      · exact Or.inr (Or.inl hv)
      · exact Or.inl hs
    · intro x hx
      obtain ⟨kx, hkx, _, _⟩ := goodFRec_key (hshape x (List.mem_cons_of_mem r hx))
      refine ⟨kx, hkx, ?_⟩
      have hrel := (List.pairwise_cons.mp hpw).1 x hx k kx hk hkx
      simpa [hk] using hrel
    · exact (List.pairwise_cons.mp hpw).2
    · intro x hx
      exact hshape x (List.mem_cons_of_mem r hx)

theorem chunkFetch_mem {src : List String} {n : Nat} {after k : String} {first : Bool}
    (h : k ∈ chunkFetch src n after first) : k ∈ src := by
  unfold chunkFetch at h
  have h1 := List.take_subset _ _ h
  cases first with
  | true =>
    rw [if_pos rfl] at h1
    exact List.mem_of_mem_filter h1
  | false =>
    rw [if_neg (by decide)] at h1
    exact List.mem_of_mem_filter h1

/-- C6 (amended): sink failure during a Create decision propagates with the
cursors unmoved but the `new` and `count` counters already incremented. -/
theorem c6_amended_sink_failure (sink : String → Except Unit Unit) (s : RunState)
    (f : String)
    (hc : s.count % 1000 ≠ 0)
    (hf : fkey? s.fbi.cur = some f)
    (hnd : ¬(f = "~" ∧ skey s.stac.cur = "~"))
    (hbr : skey s.stac.cur = "~" ∨ keyLt f (skey s.stac.cur) = true)
    (hsink : sink f = .error ()) :
    stepRun sink s = .fail { s with count := s.count + 1, new := s.new + 1 } .sinkError ∧
    ∀ fuel : Nat, runFrom sink (fuel + 1) s =
      (.crashed { s with count := s.count + 1, new := s.new + 1 } .sinkError, []) := by
  have hstep : stepRun sink s =
      .fail { s with count := s.count + 1, new := s.new + 1 } .sinkError := by
    simp only [stepRun]
    rw [if_neg hc]
    simp only [hf]
    rw [if_neg hnd, if_pos hbr]
    simp [hsink]
  exact ⟨hstep, fun fuel => by simp [runFrom, hstep]⟩

/-- C10 part 1: with the page iterator exhausted, `next_fbi_record` raises
`KeyError` (the fallback record has no `"path"`). -/
theorem fbi_exhausted_page_keyerror (c : FbiCur) (p : String)
    (hp : fkey? c.cur = some p) (hg : c.gen = []) :
    next_fbi_record 2 c = some (.error ()) := by
  simp [next_fbi_record, hp, hg]

/-- C10 part 2: with the page iterator exhausted, the chunk worker's
`next_stac_path` raises `AttributeError` (either inside the discarded
recursive call, on the plain sentinel dict, or on the plain fallback dict
after the recursion returns). -/
theorem chunk_exhausted_page_attrerror (src : List String) (n : Nat) (cur : String)
    (hns : "" ∉ src) :
    next_stac_path 2 src n cur [] = some (.error ()) := by
  cases hfetch : chunkFetch src n cur false with
  | nil =>
    simp [next_stac_path, chunk_get_stac_assets, hfetch, skey, hasMeta]
  | cons k t =>
    have hkne : ¬ k = "" := by
      intro hk
      exact hns (hk ▸ chunkFetch_mem (hfetch ▸ List.mem_cons_self k t))
    simp [next_stac_path, chunk_get_stac_assets, hfetch, skey, hasMeta, hkne]

/-- C8. For both cursors the key sequence over successive advances is
strictly increasing until the sentinel, the sentinel is absorbing (STAC
side; the FBI side can only advance successfully to a strictly greater
key), the invariant is preserved, and the sentinel sorts strictly after
every real key. -/
theorem c8_cursor_monotonicity :
    (∀ k : String, validKey k → keyLt k "~" = true) ∧
    (∀ c : StacCur, stacInv c →
      ∃ c', next_stac_asset 2 c = some c' ∧ stacInv c' ∧
        (keyLt (skey c.cur) (skey c'.cur) = true ∨
          (skey c.cur = "~" ∧ skey c'.cur = "~")) ∧
        (skey c.cur = "~" → skey c'.cur = "~")) ∧
    (∀ c c' : FbiCur, fbiInv c → next_fbi_record 2 c = some (.ok c') →
      fbiInv c' ∧ ∃ p p', fkey? c.cur = some p ∧ fkey? c'.cur = some p' ∧
        keyLt p p' = true) :=
  ⟨fun _ h => keyLt_sentinel h, stac_advance_spec,
   fun c c' h hs => fbi_advance_spec c h c' hs⟩

/-- Witness for C8 at concrete cursors over the one-key index `["a"]`. -/
theorem c8_cursor_monotonicity_witness :
    keyLt "a" "~" = true ∧
    (∃ c', next_stac_asset 2 ⟨.dict "", [.hit "a"], ["a"], 10⟩ = some c') ∧
    fbiInv ⟨.hit "a", [], ["a"], 10⟩ := by
  have hinv : fbiInv ⟨.dictPath "", [.hit "a"], ["a"], 10⟩ := by
    refine ⟨by decide, ⟨"", rfl, Or.inr (Or.inr rfl)⟩, ?_, ?_, ?_⟩
    · intro r hr
      rw [List.mem_singleton] at hr
      subst hr
      exact ⟨"a", rfl, by decide⟩
    · exact List.pairwise_singleton _ _
    · intro r hr
      rw [List.mem_singleton] at hr
      subst hr
      decide
  have h1 := c8_cursor_monotonicity.1 "a" (by decide)
  have h2 := c8_cursor_monotonicity.2.1 ⟨.dict "", [.hit "a"], ["a"], 10⟩ (by decide)
  have h3 := c8_cursor_monotonicity.2.2 ⟨.dictPath "", [.hit "a"], ["a"], 10⟩
    ⟨.hit "a", [], ["a"], 10⟩ hinv rfl
  exact ⟨h1, h2.elim fun c' hc' => ⟨c', hc'.1⟩, h3.1⟩

/-- C10. Advancing a cursor past an exhausted page iterator raises instead
of transparently fetching the next page: `next_fbi_record` raises
`KeyError` on any cursor whose generator is consumed; the chunk worker's
`next_stac_path` raises `AttributeError` there; and a concrete run (FBI
source `["a"]`, empty catalog) raises before completing. -/
theorem c10_page_end_raises :
    (∀ (c : FbiCur) (p : String), fkey? c.cur = some p → c.gen = [] →
      next_fbi_record 2 c = some (.error ())) ∧
    (∀ (src : List String) (n : Nat) (cur : String), "" ∉ src →
      next_stac_path 2 src n cur [] = some (.error ())) ∧
    runStocktake sinkOk ["a"] [] 10000 5 =
      some (.ok (.crashed ⟨⟨.hit "a", [], ["a"], 10000⟩, ⟨.dict "~", [], [], 10000⟩,
        1, 1, 0, 0, [0]⟩ .keyError, [])) :=
  ⟨fbi_exhausted_page_keyerror, chunk_exhausted_page_attrerror, rfl⟩

/-- Witness for C10 at concrete cursors. -/
theorem c10_page_end_raises_witness :
    next_fbi_record 2 ⟨.dictPath "x", [], ["x"], 5⟩ = some (.error ()) ∧
    next_stac_path 2 ["x"] 5 "" [] = some (.error ()) :=
  ⟨c10_page_end_raises.1 ⟨.dictPath "x", [], ["x"], 5⟩ "x" rfl rfl,
   c10_page_end_raises.2.1 ["x"] 5 "" (by decide)⟩

/-- Witness for the amended C6 at a concrete failing-sink Create step. -/
theorem c6_amended_sink_failure_witness :
    stepRun sinkFail ⟨⟨.hit "a", [], ["a"], 10⟩, ⟨.dict "~", [], [], 10⟩, 1, 0, 0, 0, [0]⟩ =
      .fail ⟨⟨.hit "a", [], ["a"], 10⟩, ⟨.dict "~", [], [], 10⟩, 2, 1, 0, 0, [0]⟩ .sinkError :=
  (c6_amended_sink_failure sinkFail
    ⟨⟨.hit "a", [], ["a"], 10⟩, ⟨.dict "~", [], [], 10⟩, 1, 0, 0, 0, [0]⟩ "a"
    (by decide) rfl (by decide) (Or.inl rfl) rfl).1
